import Mathlib

/-!
# Pokedex front end: the controller of `src/App.js`

A shallow embedding of the `App` component of `src/App.js`: the list filter
(`pokemonList`), the evolution-chain walk (`getPokemonEvolutions` and its inner
`compileEvolutionNames`), the detail composer (`fetchPokemonInfo`) and the state
transitions of the controller (`fetchPokemon` effect, `onGetDetails`).

Conventions of the embedding:

* a JavaScript string is the list of its UTF-16 code units (`JSString`);
* a promise that rejects, and an exception thrown inside an `async` function, is
  `Except.error`; a fulfilled promise is `Except.ok`;
* the four functions imported from `./api` perform network requests; they are
  parameters of the model (`Api`), so every theorem holds for all their outcomes;
* `String.prototype.toLowerCase` is a parameter (`toLowerCase`) of the filter;
* React state is the record `AppState`; each `useState` setter replaces one field.
-/

namespace Pokedex

/-! ## JavaScript strings and arrays -/

/-- One UTF-16 code unit. -/
abbrev CodeUnit := Nat

/-- A JavaScript string: the sequence of its UTF-16 code units. -/
abbrev JSString := List CodeUnit

/-- The UTF-16 encoding of one Unicode scalar value. -/
def utf16 (c : Char) : List CodeUnit :=
  if c.toNat < 65536 then [c.toNat]
  else [55296 + (c.toNat - 65536) / 1024, 56320 + (c.toNat - 65536) % 1024]

/-- The JavaScript string written as the literal `s`. -/
def js (s : String) : JSString := s.toList.flatMap utf16

/-- The code unit of `'/'`. -/
def slash : CodeUnit := 47

/-- Errors of the embedding: a `TypeError` thrown by a property access on
`undefined`, or the rejection of a network promise. -/
inductive JSError where
  | typeError
  | rejected (reason : JSString)
deriving DecidableEq, Repr

/-- `String.prototype.slice(start, stop)`: negative indices count from the end,
all indices are clamped to `[0, length]`. -/
def slice (s : JSString) (start stop : Int) : JSString :=
  let len : Int := s.length
  let lo : Int := if start < 0 then max (len + start) 0 else min start len
  let hi : Int := if stop < 0 then max (len + stop) 0 else min stop len
  (s.drop lo.toNat).take (hi - lo).toNat

/-- `String.prototype.split(sep)` for a separator of one code unit: the pieces
between the occurrences of `sep`, in order; never empty. -/
def split (sep : CodeUnit) : JSString → List JSString
  | [] => [[]]
  | c :: cs =>
    if c = sep then [] :: split sep cs
    else
      match split sep cs with
      | [] => [[c]]
      | piece :: pieces => (c :: piece) :: pieces

/-- Array indexing `arr[i]`: `none` stands for `undefined`. -/
def index {α : Type} (arr : List α) (i : Int) : Option α :=
  if i < 0 then none else arr.get? i.toNat

/-- `String.prototype.includes(search)`: `search` occurs in `s` as a contiguous
run of code units. -/
def includes : JSString → JSString → Bool
  | [], search => search.isPrefixOf []
  | c :: cs, search => search.isPrefixOf (c :: cs) || includes cs search

/-- A lower-casing function used to instantiate the `toLowerCase` parameter on
concrete inputs: it maps the code units of `A`..`Z` to those of `a`..`z`. -/
def toLowerCaseAscii (s : JSString) : JSString :=
  s.map fun u => if 65 ≤ u ∧ u ≤ 90 then u + 32 else u

/-! ## Response shapes of the reference API -/

/-- An entry of the list resource: `{ name, url }`. -/
structure NamedResource where
  name : JSString
  url : JSString
deriving DecidableEq, Repr

/-- An object with a `name` property: `species`, `move`, `type`. -/
structure Species where
  name : JSString
deriving DecidableEq, Repr

/-- An element of `moves`: `{ move: { name } }`. -/
structure MoveEntry where
  move : Species
deriving DecidableEq, Repr

/-- An element of `types`: `{ type: { name } }`. -/
structure TypeEntry where
  «type» : Species
deriving DecidableEq, Repr

/-- The list resource: `{ results }`. -/
structure ListResponse where
  results : List NamedResource
deriving DecidableEq, Repr

/-- The details-by-name resource: `{ name, moves, types }`. -/
structure DetailsResponse where
  name : JSString
  moves : List MoveEntry
  types : List TypeEntry
deriving DecidableEq, Repr

/-- The object `{ url }` under `evolution_chain`. -/
structure UrlRef where
  url : JSString
deriving DecidableEq, Repr

/-- The species-by-name resource: `{ evolution_chain: { url } }`. -/
structure SpeciesResponse where
  evolution_chain : UrlRef
deriving DecidableEq, Repr

/-- A node of the evolution chain: `{ species, evolves_to }`. The `species`
property may be missing (the source tests it on line 46). -/
inductive ChainLink where
  | mk (species : Option Species) (evolves_to : List ChainLink)

/-- The `species` property of a node. -/
def ChainLink.species : ChainLink → Option Species
  | .mk species _ => species

/-- The `evolves_to` property of a node. -/
def ChainLink.evolves_to : ChainLink → List ChainLink
  | .mk _ evolves_to => evolves_to

/-- The evolution-chain-by-id resource: `{ chain }`. -/
structure ChainResponse where
  chain : ChainLink

/-- The functions imported from `./api` (lines 2-7). Each performs a network
request, so its outcome is a parameter. The chain identifier is an array
element, hence possibly `undefined` (`none`). -/
structure Api where
  fetchAllPokemon : Except JSError ListResponse
  fetchPokemonDetailsByName : JSString → Except JSError DetailsResponse
  fetchPokemonSpeciesByName : JSString → Except JSError SpeciesResponse
  fetchEvolutionChainById : Option JSString → Except JSError ChainResponse

/-! ## The list filter (lines 27-33) -/

/-- The memoised `pokemonList` of lines 27-33, as a function of the two state
fields it reads. A string is truthy when it is not empty, a length when it is
not zero. -/
def pokemonList (toLowerCase : JSString → JSString)
    (pokemon : List NamedResource) (searchValue : JSString) : List NamedResource :=
  if searchValue ≠ [] ∧ pokemon.length ≠ 0 then
    pokemon.filter fun p => includes p.name (toLowerCase searchValue)
  else
    pokemon

/-! ## The evolution-chain walk (lines 40-63) -/

/-- The inner function `compileEvolutionNames` of lines 45-58. The array
`evolutionNames` it pushes to is threaded through as the last argument and
returned; `evolution.species.name` on a node without `species` throws. -/
def compileEvolutionNames :
    ChainLink → Bool → List JSString → Except JSError (List JSString)
  | .mk species evolves_to, isFirstEvolution, evolutionNames =>
    let evolutionNames :=
      match species, isFirstEvolution with
      | some sp, true => evolutionNames ++ [sp.name]
      | _, _ => evolutionNames
    match evolves_to with
    | [] => .ok evolutionNames
    | .mk evolutionSpecies evolutionEvolvesTo :: _ =>
      match evolutionSpecies with
      | none => .error .typeError
      | some sp =>
        let evolutionNames := evolutionNames ++ [sp.name]
        match evolutionEvolvesTo with
        | [] => .ok evolutionNames
        | _ :: _ =>
          compileEvolutionNames (.mk evolutionSpecies evolutionEvolvesTo) false evolutionNames

/-- The function `getPokemonEvolutions` of lines 40-63: fetch the chain, walk it
from an empty array with `isFirstEvolution` at its default `true`. -/
def getPokemonEvolutions (api : Api) (evolutionChainId : Option JSString) :
    Except JSError (List JSString) := do
  let response ← api.fetchEvolutionChainById evolutionChainId
  compileEvolutionNames response.chain true []

/-! ## The detail composer (lines 65-79) -/

/-- The identifier computed on lines 69-70:
`url.slice(0, -1).split('/')`, then the element at `length - 1`. -/
def evolutionChainId (url : JSString) : Option JSString :=
  let evolutionChainSplitUrl := split slash (slice url 0 (-1))
  index evolutionChainSplitUrl ((evolutionChainSplitUrl.length : Int) - 1)

/-- The record returned by `fetchPokemonInfo` (lines 73-78). -/
structure PokemonInfo where
  evolutions : List JSString
  pokemonName : JSString
  moves : List JSString
  types : List JSString
deriving DecidableEq, Repr

/-- The function `fetchPokemonInfo` of lines 65-79: three awaited requests in
sequence, each one aborting the function when it fails. -/
def fetchPokemonInfo (api : Api) (name : JSString) : Except JSError PokemonInfo := do
  let details ← api.fetchPokemonDetailsByName name
  let species ← api.fetchPokemonSpeciesByName details.name
  let evolutions ← getPokemonEvolutions api (evolutionChainId species.evolution_chain.url)
  return {
    evolutions := evolutions
    pokemonName := details.name
    moves := details.moves.map fun m => m.move.name
    types := details.types.map fun t => t.type.name }

/-! ## The controller state (lines 10-13) and its transitions -/

/-- The content of the `pokemonDetails` slot: `useState()` starts it at
`undefined`, `onGetDetails` writes `null` and then a record. -/
inductive DetailsSlot where
  | undefined
  | null
  | value (info : PokemonInfo)
deriving DecidableEq, Repr

/-- The slot is falsy: the details panel is not rendered (line 140). -/
def DetailsSlot.absent : DetailsSlot → Bool
  | .value _ => false
  | _ => true

/-- The four `useState` cells of lines 10-13. -/
structure AppState where
  pokemon : List NamedResource
  searchValue : JSString
  pokemonDetails : DetailsSlot
  isLoading : Bool
deriving DecidableEq, Repr

/-- The initial values given to `useState` on lines 10-13. -/
def initialState : AppState :=
  { pokemon := [], searchValue := [], pokemonDetails := .undefined, isLoading := false }

/-- The setter `setPokemon`. -/
def setPokemon (v : List NamedResource) (s : AppState) : AppState := { s with pokemon := v }

/-- The setter `setSearchValue`. -/
def setSearchValue (v : JSString) (s : AppState) : AppState := { s with searchValue := v }

/-- The setter `setPokemonDetails`. -/
def setPokemonDetails (v : DetailsSlot) (s : AppState) : AppState :=
  { s with pokemonDetails := v }

/-- The setter `setIsLoading`. -/
def setIsLoading (v : Bool) (s : AppState) : AppState := { s with isLoading := v }

/-- The handler `onSearchValueChange` of lines 35-38. -/
def onSearchValueChange (value : JSString) (s : AppState) : AppState :=
  setSearchValue value s

/-- The async function `fetchPokemon` of lines 17-22: the settlement of its
promise and the state it leaves. A rejected request skips `setPokemon`. -/
def fetchPokemon (api : Api) (s : AppState) : Except JSError Unit × AppState :=
  let s := setIsLoading true s
  match api.fetchAllPokemon with
  | .error e => (.error e, s)
  | .ok response => (.ok (), setPokemon response.results s)

/-- The body of the mount effect, line 24: `fetchPokemon().finally(...)`. The
callback of `finally` runs on either settlement, which it passes through. -/
def loadList (api : Api) (s : AppState) : Except JSError Unit × AppState :=
  let settled := fetchPokemon api s
  (settled.1, setIsLoading false settled.2)

/-- The synchronous part of `onGetDetails(name)()`: line 82, up to the `await`
of line 84. -/
def onGetDetailsStart (s : AppState) : AppState :=
  setPokemonDetails .null s

/-- The rest of `onGetDetails(name)()`, lines 84-91, run when the promise of
`fetchPokemonInfo` settles, on the state current at that moment. -/
def onGetDetailsSettle (outcome : Except JSError PokemonInfo) (s : AppState) :
    Except JSError Unit × AppState :=
  match outcome with
  | .error e => (.error e, s)
  | .ok info =>
    (.ok (), setPokemonDetails (.value {
      evolutions := info.evolutions
      pokemonName := info.pokemonName
      moves := info.moves
      types := info.types }) s)

/-- The state writes that the controller can make while a call of
`onGetDetails(name)()` is pending at its `await`: a change of the query, the
writes of the list load, and the two steps of any other call of `onGetDetails`
(the button of line 132 is never disabled and no call is cancelled). -/
inductive ControllerWrite where
  | searchValueChange (value : JSString)
  | setPokemon (v : List NamedResource)
  | setIsLoading (v : Bool)
  | detailsStart
  | detailsSettle (outcome : Except JSError PokemonInfo)

/-- The effect of one such write. -/
def ControllerWrite.apply (s : AppState) : ControllerWrite → AppState
  | .searchValueChange value => onSearchValueChange value s
  | .setPokemon v => Pokedex.setPokemon v s
  | .setIsLoading v => Pokedex.setIsLoading v s
  | .detailsStart => onGetDetailsStart s
  | .detailsSettle outcome => (onGetDetailsSettle outcome s).2

/-- The write is the fulfilment of another call of `onGetDetails`: the only
write of the environment that stores a record in the details slot. -/
def ControllerWrite.storesDetails : ControllerWrite → Bool
  | .detailsSettle (.ok _) => true
  | _ => false

/-- The handler `onGetDetails(name)()` of lines 81-92: its first step, then the
writes `pending` made by the rest of the controller while the promise of
`fetchPokemonInfo` is pending, then its continuation. -/
def onGetDetails (api : Api) (name : JSString) (pending : List ControllerWrite)
    (s : AppState) : Except JSError Unit × AppState :=
  onGetDetailsSettle (fetchPokemonInfo api name)
    (pending.foldl ControllerWrite.apply (onGetDetailsStart s))

/-! ## Reference definitions, written from the specification -/

/-- The left spine of a chain, as the specification words it: the name at the
root, then the left spine of the first child, until a node without children.
A node without a `species` contributes no name. -/
def leftSpine : ChainLink → List JSString
  | .mk species [] => (species.map fun sp => sp.name).toList
  | .mk species (first :: _) => (species.map fun sp => sp.name).toList ++ leftSpine first

mutual
/-- Every node of the tree carries a `species`. -/
def allSpecies : ChainLink → Bool
  | .mk species evolves_to => species.isSome && allSpeciesList evolves_to
/-- Every node of every tree of the list carries a `species`. -/
def allSpeciesList : List ChainLink → Bool
  | [] => true
  | c :: cs => allSpecies c && allSpeciesList cs
end

/-- Every node on the first-child path from the root carries a `species`. -/
def spineSpecies : ChainLink → Bool
  | .mk species [] => species.isSome
  | .mk species (first :: _) => species.isSome && spineSpecies first

/-- The URL with one trailing slash stripped, if it has one. -/
def stripTrailingSlash (url : JSString) : JSString :=
  if url.getLast? = some slash then url.dropLast else url

/-- The identifier as the specification words it: strip a trailing slash if
present, take the final segment. -/
def finalSegment (url : JSString) : Option JSString :=
  (split slash (stripTrailingSlash url)).getLast?

/-- The last non-empty segment of the URL. -/
def lastNonEmptySegment (url : JSString) : Option JSString :=
  ((split slash url).filter fun piece => piece ≠ []).getLast?

/-- The filter as the specification words it: the entries, in order, whose
lower-cased name contains the lower-cased query. -/
def caseInsensitiveMatches (toLowerCase : JSString → JSString)
    (list : List NamedResource) (query : JSString) : List NamedResource :=
  list.filter fun p => decide (toLowerCase query <:+: toLowerCase p.name)

/-! ## Concrete inputs -/

/-- An `Api` whose four requests succeed with the given responses. -/
def sampleApi (list : List NamedResource) (details : DetailsResponse)
    (chainUrl : JSString) (chain : ChainLink) : Api :=
  { fetchAllPokemon := .ok { results := list }
    fetchPokemonDetailsByName := fun _ => .ok details
    fetchPokemonSpeciesByName := fun _ => .ok { evolution_chain := { url := chainUrl } }
    fetchEvolutionChainById := fun _ => .ok { chain := chain } }

/-- An `Api` whose every request is rejected. -/
def failingApi : Api :=
  { fetchAllPokemon := .error (.rejected (js "Network Error"))
    fetchPokemonDetailsByName := fun _ => .error (.rejected (js "Network Error"))
    fetchPokemonSpeciesByName := fun _ => .error (.rejected (js "Network Error"))
    fetchEvolutionChainById := fun _ => .error (.rejected (js "Network Error")) }

/-- The record composed for `pikachu`. -/
def pikachuInfo : PokemonInfo :=
  { evolutions := [js "pichu", js "pikachu", js "raichu"]
    pokemonName := js "pikachu"
    moves := [js "thunder-shock"]
    types := [js "electric"] }

/-- A node with the species named `name` and the given children. -/
def link (name : String) (evolves_to : List ChainLink) : ChainLink :=
  .mk (some { name := js name }) evolves_to

/-- The chain of the specification: `A` with children `B` (child `C`) and `D`. -/
def branchingChain : ChainLink :=
  link "A" [link "B" [link "C" []], link "D" []]

/-- The sample URL of the specification. -/
def sampleUrl : JSString := js "https://host/api/v2/evolution-chain/5/"

/-- The sample URL without its trailing slash. -/
def sampleUrlNoSlash : JSString := js "https://host/api/v2/evolution-chain/5"

/-! ## Lemmas on strings and arrays -/

theorem slice_zero_neg_one (s : JSString) : slice s 0 (-1) = s.dropLast := by
  unfold slice
  simp only [List.dropLast_eq_take]
  have h1 : ¬ ((0 : Int) < 0) := by decide
  have h2 : ((-1 : Int) < 0) := by decide
  simp only [h1, h2, if_true, if_false]
  have h3 : min (0 : Int) (s.length : Int) = 0 := by omega
  rw [h3]
  simp only [Int.toNat_zero, List.drop_zero, sub_zero]
  congr 1
  omega

theorem split_ne_nil (sep : CodeUnit) (s : JSString) : split sep s ≠ [] := by
  cases s with
  | nil => simp [split]
  | cons c cs =>
    unfold split
    split_ifs
    · simp
    · cases split sep cs <;> simp

theorem split_append_sep (sep : CodeUnit) (a b : JSString) :
    split sep (a ++ sep :: b) = split sep a ++ split sep b := by
  induction a with
  | nil => simp [split]
  | cons c cs ih =>
    by_cases hc : c = sep
    · simp [split, hc, ih]
    · have e : split sep (c :: (cs ++ sep :: b)) =
          (match split sep (cs ++ sep :: b) with
            | [] => [[c]]
            | piece :: pieces => (c :: piece) :: pieces) := by
        simp [split, hc]
      have e2 : split sep (c :: cs) =
          (match split sep cs with
            | [] => [[c]]
            | piece :: pieces => (c :: piece) :: pieces) := by
        simp [split, hc]
      rw [List.cons_append, e, e2, ih]
      cases h : split sep cs with
      | nil => exact absurd h (split_ne_nil sep cs)
      | cons p ps => simp

theorem split_of_not_mem (sep : CodeUnit) (b : JSString) (h : sep ∉ b) :
    split sep b = [b] := by
  induction b with
  | nil => simp [split]
  | cons c cs ih =>
    have hc : c ≠ sep := fun e => h (by simp [e])
    have hcs : sep ∉ cs := fun e => h (by simp [e])
    simp [split, hc, ih hcs]

theorem index_last {α : Type} (l : List α) :
    index l ((l.length : Int) - 1) = l.getLast? := by
  unfold index
  cases l with
  | nil => simp
  | cons x xs =>
    have h : ¬ (((x :: xs).length : Int) - 1 < 0) := by
      simp only [List.length_cons]
      omega
    rw [if_neg h, List.getLast?_eq_getElem?, List.get?_eq_getElem?]
    congr 1
    simp only [List.length_cons]
    omega

theorem evolutionChainId_eq (url : JSString) :
    evolutionChainId url = (split slash url.dropLast).getLast? := by
  unfold evolutionChainId
  simp only [index_last, slice_zero_neg_one]

theorem includes_iff (s search : JSString) :
    includes s search = true ↔ search <:+: s := by
  induction s with
  | nil => simp [includes]
  | cons c cs ih =>
    simp only [includes, Bool.or_eq_true, ih, List.infix_cons_iff, List.isPrefixOf_iff_prefix]


/-! ## Lemmas on the evolution-chain walk -/

theorem leftSpine_of_species (sp : Species) (evolves_to : List ChainLink) :
    ∃ rest, leftSpine (.mk (some sp) evolves_to) = sp.name :: rest := by
  cases evolves_to with
  | nil => exact ⟨[], rfl⟩
  | cons first others => exact ⟨leftSpine first, rfl⟩

theorem compileEvolutionNames_spine :
    ∀ (node : ChainLink) (isFirstEvolution : Bool) (acc : List JSString),
      spineSpecies node = true →
      compileEvolutionNames node isFirstEvolution acc =
        .ok (acc ++ (if isFirstEvolution then leftSpine node else (leftSpine node).tail))
  | .mk none [], _, _, h => by simp [spineSpecies] at h
  | .mk (some sp) [], isFirstEvolution, acc, _ => by
    cases isFirstEvolution <;> simp [compileEvolutionNames, leftSpine]
  | .mk none (_ :: _), _, _, h => by simp [spineSpecies] at h
  | .mk (some sp) (.mk none evs :: others), _, _, h => by
    cases evs <;> simp [spineSpecies] at h
  | .mk (some sp) (.mk (some sp2) [] :: others), isFirstEvolution, acc, _ => by
    cases isFirstEvolution <;> simp [compileEvolutionNames, leftSpine]
  | .mk (some sp) (.mk (some sp2) (e :: es) :: others), isFirstEvolution, acc, h => by
    have hchild : spineSpecies (.mk (some sp2) (e :: es)) = true := by
      simpa [spineSpecies] using h
    have ih := compileEvolutionNames_spine (.mk (some sp2) (e :: es)) false
    cases isFirstEvolution
    · simp only [compileEvolutionNames]
      rw [ih _ hchild]
      simp [leftSpine]
    · simp only [compileEvolutionNames]
      rw [ih _ hchild]
      simp [leftSpine]

theorem compileEvolutionNames_prefix :
    ∀ (node : ChainLink) (isFirstEvolution : Bool) (acc names : List JSString),
      compileEvolutionNames node isFirstEvolution acc = .ok names →
      (match node.species, isFirstEvolution with
        | some sp, true => acc ++ [sp.name]
        | _, _ => acc) <+: names
  | .mk species [], isFirstEvolution, acc, names, h => by
    simp only [compileEvolutionNames, Except.ok.injEq] at h
    subst h
    exact List.prefix_rfl
  | .mk species (.mk none evs :: others), isFirstEvolution, acc, names, h => by
    simp [compileEvolutionNames] at h
  | .mk species (.mk (some sp2) [] :: others), isFirstEvolution, acc, names, h => by
    simp only [compileEvolutionNames, Except.ok.injEq] at h
    subst h
    exact List.prefix_append _ _
  | .mk species (.mk (some sp2) (e :: es) :: others), isFirstEvolution, acc, names, h => by
    simp only [compileEvolutionNames] at h
    have ih := compileEvolutionNames_prefix (.mk (some sp2) (e :: es)) false _ names h
    exact List.IsPrefix.trans (List.prefix_append _ _) ih

theorem spineSpecies_of_allSpecies :
    ∀ (node : ChainLink), allSpecies node = true → spineSpecies node = true
  | .mk species [], h => by
    simpa [allSpecies, allSpeciesList, spineSpecies] using h
  | .mk species (first :: others), h => by
    simp only [allSpecies, allSpeciesList, Bool.and_eq_true] at h
    simp only [spineSpecies, Bool.and_eq_true]
    exact ⟨h.1, spineSpecies_of_allSpecies first h.2.1⟩

/-! ## Lemmas on the controller -/

theorem foldl_apply_details_null :
    ∀ (ws : List ControllerWrite) (t : AppState),
      (∀ w ∈ ws, w.storesDetails = false) → t.pokemonDetails = .null →
      (ws.foldl ControllerWrite.apply t).pokemonDetails = .null := by
  intro ws
  induction ws with
  | nil => intro t _ ht; exact ht
  | cons w ws ih =>
    intro t hq ht
    rw [List.foldl_cons]
    apply ih _ (fun v hv => hq v (List.mem_cons_of_mem _ hv))
    have hw := hq w (List.mem_cons_self _ _)
    cases w with
    | searchValueChange value => exact ht
    | setPokemon v => exact ht
    | setIsLoading v => exact ht
    | detailsStart => rfl
    | detailsSettle outcome =>
      cases outcome with
      | error e => exact ht
      | ok info => simp [ControllerWrite.storesDetails] at hw

theorem foldl_apply_frame :
    ∀ (ws : List ControllerWrite) (t u : AppState),
      t.pokemon = u.pokemon → t.searchValue = u.searchValue → t.isLoading = u.isLoading →
      (ws.foldl ControllerWrite.apply t).pokemon = (ws.foldl ControllerWrite.apply u).pokemon ∧
      (ws.foldl ControllerWrite.apply t).searchValue =
        (ws.foldl ControllerWrite.apply u).searchValue ∧
      (ws.foldl ControllerWrite.apply t).isLoading =
        (ws.foldl ControllerWrite.apply u).isLoading := by
  intro ws
  induction ws with
  | nil => intro t u h1 h2 h3; exact ⟨h1, h2, h3⟩
  | cons w ws ih =>
    intro t u h1 h2 h3
    rw [List.foldl_cons, List.foldl_cons]
    cases w with
    | searchValueChange value => exact ih _ _ h1 rfl h3
    | setPokemon v => exact ih _ _ rfl h2 h3
    | setIsLoading v => exact ih _ _ h1 h2 rfl
    | detailsStart => exact ih _ _ h1 h2 h3
    | detailsSettle outcome =>
      cases outcome with
      | error e => exact ih _ _ h1 h2 h3
      | ok info => exact ih _ _ h1 h2 h3

/-! ## The evolution-chain walk: C1, C10 -/

/-- C1: for every evolution tree whose nodes each carry a species name, fetched
successfully, `getPokemonEvolutions` returns exactly the left spine of the tree:
the root's name, then the name of the first child, then of that child's first
child, until a node without children. The names are neither taken from a child
at index 1 or higher nor de-duplicated. -/
theorem getPokemonEvolutions_left_spine (api : Api) (id : Option JSString)
    (chain : ChainLink)
    (hfetch : api.fetchEvolutionChainById id = .ok { chain := chain })
    (hall : allSpecies chain = true) :
    getPokemonEvolutions api id = .ok (leftSpine chain) := by
  have h := compileEvolutionNames_spine chain true []
    (spineSpecies_of_allSpecies chain hall)
  simp only [getPokemonEvolutions, hfetch]
  simpa using h

/-- Witness of C1: root `A` with children `B` (child `C`) and `D` gives
`["A","B","C"]`. -/
theorem getPokemonEvolutions_left_spine_witness :
    getPokemonEvolutions (sampleApi [] ⟨[], [], []⟩ sampleUrl branchingChain)
      (some (js "5")) = .ok [js "A", js "B", js "C"] :=
  getPokemonEvolutions_left_spine (sampleApi [] ⟨[], [], []⟩ sampleUrl branchingChain)
    (some (js "5")) branchingChain rfl (by decide)

/-- C10: for every fetched chain whose root has a species, every sequence that
`getPokemonEvolutions` produces is non-empty with the root's name as element 0;
a sequence is produced whenever the nodes of the first-child path carry a
species; and a root without children gives exactly the one-element sequence of
the root's name. -/
theorem getPokemonEvolutions_root_first (api : Api) (id : Option JSString)
    (chain : ChainLink) (sp : Species)
    (hfetch : api.fetchEvolutionChainById id = .ok { chain := chain })
    (hroot : chain.species = some sp) :
    (∀ names, getPokemonEvolutions api id = .ok names →
      names ≠ [] ∧ index names 0 = some sp.name) ∧
    (spineSpecies chain = true →
      ∃ rest, getPokemonEvolutions api id = .ok (sp.name :: rest)) ∧
    (chain.evolves_to = [] → getPokemonEvolutions api id = .ok [sp.name]) := by
  have hrun : getPokemonEvolutions api id = compileEvolutionNames chain true [] := by
    simp only [getPokemonEvolutions, hfetch]
    rfl
  obtain ⟨species, evolves_to⟩ := chain
  simp only [ChainLink.species] at hroot
  subst hroot
  refine ⟨?_, ?_, ?_⟩
  · intro names hn
    rw [hrun] at hn
    have hp := compileEvolutionNames_prefix _ _ _ _ hn
    obtain ⟨t, ht⟩ := hp
    simp only [ChainLink.species, List.nil_append, List.singleton_append] at ht
    subst ht
    exact ⟨by simp, by simp [index]⟩
  · intro hs
    obtain ⟨rest, hrest⟩ := leftSpine_of_species sp evolves_to
    refine ⟨rest, ?_⟩
    rw [hrun, compileEvolutionNames_spine _ true [] hs]
    simp [hrest]
  · intro he
    simp only [ChainLink.evolves_to] at he
    subst he
    rw [hrun]
    simp [compileEvolutionNames]

/-- Witness of C10: the chain `A` alone gives `["A"]`. -/
theorem getPokemonEvolutions_root_first_witness :
    getPokemonEvolutions (sampleApi [] ⟨[], [], []⟩ sampleUrl (link "A" []))
      (some (js "5")) = .ok [js "A"] :=
  (getPokemonEvolutions_root_first (sampleApi [] ⟨[], [], []⟩ sampleUrl (link "A" []))
    (some (js "5")) (link "A" []) { name := js "A" } rfl rfl).2.2 rfl

/-! ## The chain identifier: C2, C3 -/

/-- Counterexample to C2: for the reference URL without a trailing slash,
`".../evolution-chain/5"`, the identifier extracted is `""` and not `"5"`, while
the last non-empty segment, and the final segment after stripping a trailing
slash if present, are both `"5"`. -/
theorem evolutionChainId_without_trailing_slash :
    evolutionChainId sampleUrlNoSlash = some (js "") ∧
    evolutionChainId sampleUrlNoSlash ≠ some (js "5") ∧
    lastNonEmptySegment sampleUrlNoSlash = some (js "5") ∧
    finalSegment sampleUrlNoSlash = some (js "5") := by
  decide

/-- C2, amended: for every reference URL that ends with a slash, the identifier
extracted is the final segment of the URL with that trailing slash stripped,
and when that segment is not empty it is the last non-empty segment of the
URL. -/
theorem evolutionChainId_with_trailing_slash (url : JSString)
    (hslash : url.getLast? = some slash) :
    evolutionChainId url = finalSegment url ∧
    ∀ id, evolutionChainId url = some id → id ≠ [] →
      lastNonEmptySegment url = some id := by
  have hurl : url = url.dropLast ++ [slash] := by
    have hne : url ≠ [] := by
      intro h
      simp [h] at hslash
    have hl := List.dropLast_append_getLast hne
    rw [List.getLast?_eq_getLast _ hne] at hslash
    rw [Option.some.inj hslash] at hl
    exact hl.symm
  refine ⟨?_, ?_⟩
  · simp only [evolutionChainId_eq, finalSegment, stripTrailingSlash, hslash, if_true]
  · intro id hid hne
    rw [evolutionChainId_eq] at hid
    obtain ⟨front, hfront⟩ : ∃ front, split slash url.dropLast = front ++ [id] := by
      have hs := split_ne_nil slash url.dropLast
      have hl := List.dropLast_append_getLast hs
      rw [List.getLast?_eq_getLast _ hs] at hid
      rw [Option.some.inj hid] at hl
      exact ⟨_, hl.symm⟩
    have hsplit : split slash url = front ++ [id] ++ [[]] := by
      conv_lhs => rw [hurl]
      have := split_append_sep slash url.dropLast []
      simp only [split] at this
      rw [this, hfront]
    simp [lastNonEmptySegment, hsplit, List.filter_append, hne]

/-- Witness of C2, amended: `".../evolution-chain/5/"` yields `"5"`, which is
also the last non-empty segment of the URL. -/
theorem evolutionChainId_with_trailing_slash_witness :
    evolutionChainId sampleUrl = finalSegment sampleUrl ∧
    lastNonEmptySegment sampleUrl = some (js "5") :=
  ⟨(evolutionChainId_with_trailing_slash sampleUrl (by decide)).1,
   (evolutionChainId_with_trailing_slash sampleUrl (by decide)).2 (js "5")
     (by decide) (by decide)⟩

/-- C3: for every URL of the form `head + "/" + id + "/"` where `id` contains no
`"/"`, the identifier extracted by `fetchPokemonInfo` is `id`. The claim also
asks `id` to be non-empty; the code does not need it. -/
theorem evolutionChainId_of_slash_id_slash (head id : JSString)
    (hid : slash ∉ id) :
    evolutionChainId (head ++ [slash] ++ id ++ [slash]) = some id := by
  rw [evolutionChainId_eq, List.dropLast_concat, List.append_assoc, List.singleton_append,
    split_append_sep, split_of_not_mem slash id hid, List.getLast?_concat]

/-- Witness of C3: `"https://host/api/v2/evolution-chain/5/"` yields `"5"`. -/
theorem evolutionChainId_of_slash_id_slash_witness :
    evolutionChainId (js "https://host/api/v2/evolution-chain" ++ [slash] ++ js "5" ++ [slash])
      = some (js "5") ∧
    js "https://host/api/v2/evolution-chain" ++ [slash] ++ js "5" ++ [slash] = sampleUrl :=
  ⟨evolutionChainId_of_slash_id_slash (js "https://host/api/v2/evolution-chain") (js "5")
    (by decide), by decide⟩

/-! ## The list filter: C4, C5, C6 -/

/-- C4: for every list `L` and query `q`, the filtered list is a sub-list of `L`
and an entry of `L` appears in it if and only if its name contains the
lower-cased `q` as a substring. The lower-casing function is any function that
sends the empty string to the empty string, as `toLowerCase` does. -/
theorem pokemonList_mem_iff (toLowerCase : JSString → JSString)
    (hempty : toLowerCase [] = []) (L : List NamedResource) (q : JSString) :
    List.Sublist (pokemonList toLowerCase L q) L ∧
    ∀ entry, entry ∈ pokemonList toLowerCase L q ↔
      entry ∈ L ∧ toLowerCase q <:+: entry.name := by
  unfold pokemonList
  split_ifs with h
  · refine ⟨List.filter_sublist _, fun entry => ?_⟩
    simp only [List.mem_filter, includes_iff]
  · refine ⟨List.Sublist.refl _, fun entry => ?_⟩
    have hq : q = [] ∨ L = [] := by
      by_cases hq : q = []
      · exact Or.inl hq
      · right
        by_contra hL
        exact h ⟨hq, fun hlen => hL (List.length_eq_zero.mp hlen)⟩
    rcases hq with hq | hL
    · subst hq
      rw [hempty]
      simp
    · subst hL
      simp

/-- Witness of C4: with the query `"CHU"`, `pikachu` is kept and `mew` is not. -/
theorem pokemonList_mem_iff_witness :
    ((⟨js "pikachu", []⟩ : NamedResource) ∈
      pokemonList toLowerCaseAscii [⟨js "pikachu", []⟩, ⟨js "mew", []⟩] (js "CHU")) ∧
    ¬ ((⟨js "mew", []⟩ : NamedResource) ∈
      pokemonList toLowerCaseAscii [⟨js "pikachu", []⟩, ⟨js "mew", []⟩] (js "CHU")) :=
  ⟨((pokemonList_mem_iff toLowerCaseAscii rfl
      [⟨js "pikachu", []⟩, ⟨js "mew", []⟩] (js "CHU")).2 ⟨js "pikachu", []⟩).2
      ⟨by decide, by decide⟩,
   fun h => absurd (((pokemonList_mem_iff toLowerCaseAscii rfl
      [⟨js "pikachu", []⟩, ⟨js "mew", []⟩] (js "CHU")).2 ⟨js "mew", []⟩).1 h).2
      (by decide)⟩

/-- C5: for every list `L`, filtering with the empty query returns `L`
unchanged, with the same elements in the same order. -/
theorem pokemonList_empty_query (toLowerCase : JSString → JSString)
    (L : List NamedResource) :
    pokemonList toLowerCase L [] = L := by
  simp [pokemonList]

/-- C6: for every list `L` whose entry names are all already lowercase and every
non-empty query `q`, the filtered list is the order-preserving subsequence of
`L` of exactly the entries whose lower-cased name contains the lower-cased `q`;
and two non-empty queries with the same lower-cased form give the same list. -/
theorem pokemonList_case_insensitive (toLowerCase : JSString → JSString)
    (L : List NamedResource) (hlower : ∀ entry ∈ L, toLowerCase entry.name = entry.name)
    (q : JSString) (hq : q ≠ []) :
    pokemonList toLowerCase L q = caseInsensitiveMatches toLowerCase L q ∧
    ∀ q2, q2 ≠ [] → toLowerCase q2 = toLowerCase q →
      pokemonList toLowerCase L q2 = pokemonList toLowerCase L q := by
  have hfilter : ∀ q1, q1 ≠ [] → pokemonList toLowerCase L q1 =
      L.filter fun p => includes p.name (toLowerCase q1) := by
    intro q1 hq1
    unfold pokemonList
    split_ifs with h
    · rfl
    · have hL : L = [] := by
        by_contra hL
        exact h ⟨hq1, fun hlen => hL (List.length_eq_zero.mp hlen)⟩
      subst hL
      rfl
  refine ⟨?_, ?_⟩
  · rw [hfilter q hq]
    unfold caseInsensitiveMatches
    apply List.filter_congr
    intro entry hentry
    rw [hlower entry hentry]
    by_cases hin : toLowerCase q <:+: entry.name
    · simp [hin, (includes_iff _ _).mpr hin]
    · have : includes entry.name (toLowerCase q) = false := by
        cases hinc : includes entry.name (toLowerCase q)
        · rfl
        · exact absurd ((includes_iff _ _).mp hinc) hin
      simp [hin, this]
  · intro q2 hq2 hsame
    rw [hfilter q hq, hfilter q2 hq2, hsame]

/-- Witness of C6: on a lowercase list the queries `"CHU"` and `"chu"` both keep
`pikachu` and `raichu`, in that order. -/
theorem pokemonList_case_insensitive_witness :
    pokemonList toLowerCaseAscii
      [⟨js "pikachu", []⟩, ⟨js "mew", []⟩, ⟨js "raichu", []⟩] (js "CHU")
      = [⟨js "pikachu", []⟩, ⟨js "raichu", []⟩] ∧
    pokemonList toLowerCaseAscii
      [⟨js "pikachu", []⟩, ⟨js "mew", []⟩, ⟨js "raichu", []⟩] (js "chu")
      = pokemonList toLowerCaseAscii
      [⟨js "pikachu", []⟩, ⟨js "mew", []⟩, ⟨js "raichu", []⟩] (js "CHU") :=
  ⟨((pokemonList_case_insensitive toLowerCaseAscii
      [⟨js "pikachu", []⟩, ⟨js "mew", []⟩, ⟨js "raichu", []⟩] (by decide)
      (js "CHU") (by decide)).1).trans (by decide),
   (pokemonList_case_insensitive toLowerCaseAscii
      [⟨js "pikachu", []⟩, ⟨js "mew", []⟩, ⟨js "raichu", []⟩] (by decide)
      (js "CHU") (by decide)).2 (js "chu") (by decide) (by decide)⟩

/-! ## The detail composer: C7 -/

/-- C7: for every details response with canonical name `pokemonName`, moves
`[{move:{name:m_1}},...]` and types `[{type:{name:t_1}},...]`, when the species
request succeeds and the resolver produces `evolutions` for the identifier
extracted from the chain URL, `fetchPokemonInfo` returns the record with
`moves = [m_1,...]` and `types = [t_1,...]` (bare names, upstream order),
`pokemonName` the canonical name and `evolutions` the resolver's output. -/
theorem fetchPokemonInfo_record (api : Api) (name pokemonName : JSString)
    (moveNames typeNames : List JSString) (species : SpeciesResponse)
    (evolutions : List JSString)
    (hdetails : api.fetchPokemonDetailsByName name = .ok
      { name := pokemonName
        moves := moveNames.map fun m => { move := { name := m } }
        types := typeNames.map fun t => { «type» := { name := t } } })
    (hspecies : api.fetchPokemonSpeciesByName pokemonName = .ok species)
    (hevolutions : getPokemonEvolutions api (evolutionChainId species.evolution_chain.url)
      = .ok evolutions) :
    fetchPokemonInfo api name = .ok
      { evolutions := evolutions
        pokemonName := pokemonName
        moves := moveNames
        types := typeNames } := by
  unfold fetchPokemonInfo
  rw [hdetails]
  simp only [bind, Except.bind]
  rw [hspecies]
  simp only [hevolutions]
  simp [pure, Except.pure, Function.comp_def]

/-- Witness of C7: moves `[{move:{name:"tackle"}}]` and types
`[{type:{name:"normal"}}]` give moves `["tackle"]` and types `["normal"]`. -/
theorem fetchPokemonInfo_record_witness :
    fetchPokemonInfo
      (sampleApi []
        { name := js "rattata"
          moves := [{ move := { name := js "tackle" } }]
          types := [{ «type» := { name := js "normal" } }] }
        sampleUrl (link "rattata" [link "raticate" []]))
      (js "rattata") = .ok
      { evolutions := [js "rattata", js "raticate"]
        pokemonName := js "rattata"
        moves := [js "tackle"]
        types := [js "normal"] } :=
  fetchPokemonInfo_record _ (js "rattata") (js "rattata") [js "tackle"] [js "normal"]
    { evolution_chain := { url := sampleUrl } } [js "rattata", js "raticate"] rfl rfl rfl

/-! ## The controller: C8, C9 -/

/-- Counterexample to C8: two overlapping requests. From the initial state the
button of `pikachu` is clicked, then the button of another entry; the first
request fulfils with the record of `pikachu` while the second is pending, and
the second request then fails. The details slot holds the record of `pikachu`:
it is present, by a composition that is not the failed one, and it is stale. -/
theorem onGetDetails_overlapping_requests :
    fetchPokemonInfo failingApi (js "mew") = .error (.rejected (js "Network Error")) ∧
    (onGetDetails failingApi (js "mew") [.detailsSettle (.ok pikachuInfo)]
      (onGetDetailsStart initialState)).2.pokemonDetails = .value pikachuInfo ∧
    (onGetDetails failingApi (js "mew") [.detailsSettle (.ok pikachuInfo)]
      (onGetDetailsStart initialState)).2.pokemonDetails.absent = false ∧
    (onGetDetailsSettle (.error (.rejected (js "Network Error")))
      (onGetDetailsSettle (.ok pikachuInfo)
        (onGetDetailsStart (onGetDetailsStart initialState))).2).2.pokemonDetails
      = .value pikachuInfo := by
  refine ⟨rfl, rfl, rfl, rfl⟩

/-- C8, amended: for every prior state, the first step of `onGetDetails` sets
the details to `null` and leaves the list, the query and the loading flag
unchanged. Provided no other details request fulfils while this one is pending
(as when it is the only request in flight), the details stay `null` until the
request settles, then are the composed record if `fetchPokemonInfo` succeeded
and are still `null` if it failed. In every state a failed composition writes
nothing and a successful one writes the whole record, and the request leaves
the list, the query and the loading flag as the pending writes alone make
them. -/
theorem onGetDetails_clears_then_settles (api : Api) (name : JSString) (s : AppState)
    (pending : List ControllerWrite) (outcome : Except JSError PokemonInfo)
    (hquiet : ∀ w ∈ pending, w.storesDetails = false) :
    (onGetDetailsStart s).pokemonDetails = .null ∧
    (onGetDetailsStart s).pokemon = s.pokemon ∧
    (onGetDetailsStart s).searchValue = s.searchValue ∧
    (onGetDetailsStart s).isLoading = s.isLoading ∧
    (pending.foldl ControllerWrite.apply (onGetDetailsStart s)).pokemonDetails = .null ∧
    (onGetDetailsSettle outcome
        (pending.foldl ControllerWrite.apply (onGetDetailsStart s))).2.pokemonDetails =
      (match outcome with
        | .ok info => .value info
        | .error _ => .null) ∧
    (∀ (t : AppState) (e : JSError), (onGetDetailsSettle (.error e) t).2 = t) ∧
    (∀ (t : AppState) (info : PokemonInfo),
      (onGetDetailsSettle (.ok info) t).2 = setPokemonDetails (.value info) t) ∧
    (onGetDetails api name pending s).2.pokemonDetails =
      (match fetchPokemonInfo api name with
        | .ok info => .value info
        | .error _ => .null) ∧
    (onGetDetails api name pending s).2.pokemon =
      (pending.foldl ControllerWrite.apply s).pokemon ∧
    (onGetDetails api name pending s).2.searchValue =
      (pending.foldl ControllerWrite.apply s).searchValue ∧
    (onGetDetails api name pending s).2.isLoading =
      (pending.foldl ControllerWrite.apply s).isLoading := by
  have hnull := foldl_apply_details_null pending (onGetDetailsStart s) hquiet rfl
  have hframe := foldl_apply_frame pending (onGetDetailsStart s) s rfl rfl rfl
  have hsettle : ∀ (o : Except JSError PokemonInfo) (t : AppState),
      (onGetDetailsSettle o t).2.pokemon = t.pokemon ∧
      (onGetDetailsSettle o t).2.searchValue = t.searchValue ∧
      (onGetDetailsSettle o t).2.isLoading = t.isLoading := by
    intro o t
    cases o <;> exact ⟨rfl, rfl, rfl⟩
  refine ⟨rfl, rfl, rfl, rfl, hnull, ?_, fun _ _ => rfl, fun _ _ => rfl, ?_, ?_, ?_, ?_⟩
  · cases outcome with
    | error e => simp only [onGetDetailsSettle]; exact hnull
    | ok info => rfl
  · unfold onGetDetails
    cases fetchPokemonInfo api name with
    | error e => simp only [onGetDetailsSettle]; exact hnull
    | ok info => rfl
  · unfold onGetDetails
    rw [(hsettle _ _).1, hframe.1]
  · unfold onGetDetails
    rw [(hsettle _ _).2.1, hframe.2.1]
  · unfold onGetDetails
    rw [(hsettle _ _).2.2, hframe.2.2]

/-- Witness of C8, amended: a request that fails while the query changes and
another request starts and fails leaves the details `null`. -/
theorem onGetDetails_clears_then_settles_witness :
    (onGetDetails failingApi (js "mew")
      [.searchValueChange (js "pi"), .detailsStart,
        .detailsSettle (.error (.rejected (js "Network Error")))]
      { initialState with pokemonDetails := .value pikachuInfo }).2.pokemonDetails
      = .null :=
  (onGetDetails_clears_then_settles failingApi (js "mew")
    { initialState with pokemonDetails := .value pikachuInfo }
    [.searchValueChange (js "pi"), .detailsStart,
      .detailsSettle (.error (.rejected (js "Network Error")))]
    (.ok pikachuInfo)
    (by
      intro w hw
      simp only [List.mem_cons, List.mem_singleton, List.not_mem_nil, or_false] at hw
      rcases hw with rfl | rfl | rfl <;> rfl)).2.2.2.2.2.2.2.2.1

/-- C9: starting from the initial state, the list load ends with the loading
flag cleared whether the request succeeds or fails; the list is the fetched
`results` on success and is still empty on failure; the query and the details
are unchanged in both cases. -/
theorem loadList_from_initialState (api : Api) :
    (loadList api initialState).2.isLoading = false ∧
    (loadList api initialState).2.pokemon =
      (match api.fetchAllPokemon with
        | .ok response => response.results
        | .error _ => []) ∧
    (loadList api initialState).2.searchValue = initialState.searchValue ∧
    (loadList api initialState).2.pokemonDetails = initialState.pokemonDetails ∧
    (fetchPokemon api initialState).2.isLoading = true := by
  unfold loadList fetchPokemon
  cases api.fetchAllPokemon <;> exact ⟨rfl, rfl, rfl, rfl, rfl⟩

end Pokedex
